import Mathlib

/-!
Verification of the Eclipse HCI protocol engine against its design document.

Bytes are modelled as `Nat` (every value produced by the embedded code is
shown or assumed `< 256` where it matters); `Buffer`s are `List Nat`.
The definitions below are shallow embeddings of the TypeScript source:
`EclipseHCI.handleMessage` / `processMessage` (the stream reassembler found
in `src/EclipseHCI.ts`, the implementation imported by the test suite),
`EclipseHCI.addToQueue` / `processQueue` / the socket close handler,
`HCIRequest.getRequest`, `LevelConversion`,
`RequestCrosspointLevelActions.createPayload` and
`ReplyCrosspointLevelStatus.parse`.
-/

namespace EclipseHCI

/-- The 2-byte frame start marker `0x5A 0x0F`. -/
def startBytes : List Nat := [0x5A, 0x0F]

/-- The 2-byte frame end marker `0x2E 0x8D`. -/
def endBytes : List Nat := [0x2E, 0x8D]

/-- Model of `Buffer.readUInt16BE(off)`: big-endian 16-bit read at `off`
(out-of-range positions read as 0; callers guard the length first,
mirroring the bounds Node enforces). -/
def readUInt16BE (b : List Nat) (off : Nat) : Nat :=
  256 * b.getD off 0 + b.getD (off + 1) 0

/-- The two bytes of `buf.writeUInt16BE(n)` for `n ≤ 0xFFFF`. -/
def u16BE (n : Nat) : List Nat := [n / 256, n % 256]

/-- Model of `Buffer.prototype.subarray(start)` with Node's negative-index
semantics: a negative `start` counts from the end of the buffer
(clamped at 0), a positive one is clamped at the length. -/
def nodeSubarrayFrom (b : List Nat) (start : Int) : List Nat :=
  if start < 0 then b.drop (b.length - min b.length start.natAbs)
  else b.drop (min start.toNat b.length)

/-- Model of `Buffer.indexOf(startBytes)` for the 2-byte start marker: index of the
first full occurrence of `0x5A 0x0F`, `none` when there is none (a lone
trailing `0x5A` is not an occurrence). -/
def findStart : List Nat → Option Nat
  | [] => none
  | [_] => none
  | a :: b :: rest =>
    if a = 0x5A ∧ b = 0x0F then some 0
    else (findStart (b :: rest)).map (· + 1)

/-- The end-marker check of `handleMessage`: slice the candidate's final two
bytes (`subarray(lengthField - 2)`, Node semantics) and compare with the end
marker. -/
def endOk (cand : List Nat) (len : Nat) : Bool :=
  nodeSubarrayFrom cand ((len : Int) - 2) = endBytes

/-- Result of one pass through the body of `handleMessage`'s while loop. -/
inductive StepRes where
  /-- Case `break`: wait for more data, keeping this (possibly trimmed) buffer. -/
  | stop : List Nat → StepRes
  /-- corrupt candidate: drop only the 2-byte start marker and `continue`. -/
  | drop : List Nat → StepRes
  /-- a validated frame is handed to `processMessage`; buffer advances. -/
  | emit : List Nat → List Nat → StepRes
deriving DecidableEq

/-- The part of the loop body that runs after the buffer has been trimmed so
the start marker sits at offset 0 (`handleMessage`, steps 3–6): length-field
guard, completeness guard, candidate slice and end-marker check. -/
def stepAligned (b : List Nat) : StepRes :=
  if b.length < 4 then .stop b
  else
    let len := readUInt16BE b 2
    if b.length < len then .stop b
    else
      let cand := b.take len
      if endOk cand len then .emit cand (b.drop len)
      else .drop (b.drop 2)

/-- One full iteration of `handleMessage`'s while loop: locate the start
marker, trim everything before it, then run the aligned checks.  When no
marker is found the whole buffer is kept for the next data event. -/
def reassembleStep (b : List Nat) : StepRes :=
  match findStart b with
  | none => .stop b
  | some i => stepAligned (b.drop i)

/-- Fuel-indexed run of `handleMessage`'s while loop, returning the residual
buffer and the frames delivered (in order) to `processMessage`.  Every
`drop`/`emit` step strictly shrinks the buffer, so fuel equal to the buffer
length is always sufficient (`reassembleRun_fuel`). -/
def reassembleRun : Nat → List Nat → List Nat × List (List Nat)
  | 0, b => (b, [])
  | fuel + 1, b =>
    match reassembleStep b with
    | .stop r => (r, [])
    | .drop b2 => reassembleRun fuel b2
    | .emit f b2 =>
      let p := reassembleRun fuel b2
      (p.1, f :: p.2)

/-- Run the reassembly loop to quiescence on buffer `b`. -/
def reassemble (b : List Nat) : List Nat × List (List Nat) :=
  reassembleRun b.length b

/-- Model of `handleMessage(data)` on a connection whose buffer holds `buf`:
append, then loop. Returns (new buffer, frames delivered). -/
def handleMessage (buf data : List Nat) : List Nat × List (List Nat) :=
  reassemble (buf ++ data)

end EclipseHCI

namespace EclipseHCI

lemma findStart_cons_cons (a b : Nat) (rest : List Nat) :
    findStart (a :: b :: rest) =
      if a = 0x5A ∧ b = 0x0F then some 0 else (findStart (b :: rest)).map (· + 1) := rfl

/-- A full occurrence of the start marker inside `b` is unchanged by
appending more data. -/
lemma findStart_append {b : List Nat} {i : Nat} (h : findStart b = some i)
    (d : List Nat) : findStart (b ++ d) = some i := by
  induction b generalizing i with
  | nil => simp [findStart] at h
  | cons a t ih =>
    cases t with
    | nil => simp [findStart] at h
    | cons x rest =>
      rw [findStart_cons_cons] at h
      rw [List.cons_append, List.cons_append, findStart_cons_cons]
      by_cases hax : a = 0x5A ∧ x = 0x0F
      · simpa [hax] using h
      · simp only [hax, if_false] at h ⊢
        obtain ⟨j, hj, rfl⟩ := Option.map_eq_some'.mp h
        rw [← List.cons_append, ih hj]
        rfl

/-- Where `findStart` points, the start marker actually sits. -/
lemma findStart_drop {b : List Nat} {i : Nat} (h : findStart b = some i) :
    ∃ t, b.drop i = 0x5A :: 0x0F :: t := by
  induction b generalizing i with
  | nil => simp [findStart] at h
  | cons a t ih =>
    cases t with
    | nil => simp [findStart] at h
    | cons x rest =>
      rw [findStart_cons_cons] at h
      by_cases hax : a = 0x5A ∧ x = 0x0F
      · obtain ⟨ha, hx⟩ := hax
        subst ha; subst hx
        rw [if_pos ⟨rfl, rfl⟩] at h
        injection h with h0
        subst h0
        exact ⟨rest, rfl⟩
      · simp only [hax, if_false] at h
        obtain ⟨j, hj, rfl⟩ := Option.map_eq_some'.mp h
        exact ih hj

lemma findStart_le_length {b : List Nat} {i : Nat} (h : findStart b = some i) :
    i + 2 ≤ b.length := by
  obtain ⟨t, ht⟩ := findStart_drop h
  have := congrArg List.length ht
  simp [List.length_drop] at this
  omega

lemma findStart_marker (t : List Nat) : findStart (0x5A :: 0x0F :: t) = some 0 := rfl

lemma nodeSubarrayFrom_length_le (b : List Nat) (start : Int) :
    (nodeSubarrayFrom b start).length ≤ b.length := by
  unfold nodeSubarrayFrom
  split_ifs <;> simp

/-- A candidate slice that passes the end-marker check is at least 2 bytes
long (there must be room for the end marker itself). -/
lemma endOk_two_le {cand : List Nat} {len : Nat} (hc : cand.length = len)
    (h : endOk cand len = true) : 2 ≤ len := by
  simp only [endOk, decide_eq_true_eq] at h
  have h2 : (nodeSubarrayFrom cand ((len : Int) - 2)).length = 2 := by
    rw [h]; rfl
  have := nodeSubarrayFrom_length_le cand ((len : Int) - 2)
  omega

lemma readUInt16BE_append {b : List Nat} (d : List Nat) (h : 4 ≤ b.length) :
    readUInt16BE (b ++ d) 2 = readUInt16BE b 2 := by
  unfold readUInt16BE
  rw [List.getD_append _ _ _ _ (by omega), List.getD_append _ _ _ _ (by omega)]

/-- Unpack a `stepAligned` result of `drop`: guards held, the end check
failed, and exactly the 2 marker bytes were removed. -/
lemma stepAligned_drop_eq {b b2 : List Nat} (h : stepAligned b = .drop b2) :
    4 ≤ b.length ∧ readUInt16BE b 2 ≤ b.length ∧
      endOk (b.take (readUInt16BE b 2)) (readUInt16BE b 2) = false ∧
      b2 = b.drop 2 := by
  simp only [stepAligned] at h
  split_ifs at h with h1 h2 h3; cases h
  refine ⟨by omega, by omega, by simpa using h3, rfl⟩

/-- Unpack a `stepAligned` result of `emit`. -/
lemma stepAligned_emit_eq {b f b2 : List Nat} (h : stepAligned b = .emit f b2) :
    4 ≤ b.length ∧ readUInt16BE b 2 ≤ b.length ∧
      endOk (b.take (readUInt16BE b 2)) (readUInt16BE b 2) = true ∧
      f = b.take (readUInt16BE b 2) ∧ b2 = b.drop (readUInt16BE b 2) := by
  simp only [stepAligned] at h
  split_ifs at h with h1 h2 h3; cases h
  exact ⟨by omega, by omega, h3, rfl, rfl⟩

/-- Unpack a `stepAligned` result of `stop`: the buffer is kept untouched. -/
lemma stepAligned_stop_eq {b r : List Nat} (h : stepAligned b = .stop r) : r = b := by
  simp only [stepAligned] at h
  split_ifs at h <;> cases h <;> rfl

lemma stepAligned_append_drop {b b2 : List Nat} (h : stepAligned b = .drop b2)
    (d : List Nat) : stepAligned (b ++ d) = .drop (b2 ++ d) := by
  obtain ⟨h4, hlen, hbad, rfl⟩ := stepAligned_drop_eq h
  have hL : (b ++ d).length = b.length + d.length := List.length_append b d
  have hr : readUInt16BE (b ++ d) 2 = readUInt16BE b 2 := readUInt16BE_append d h4
  simp only [stepAligned, hr]
  rw [if_neg (by omega), if_neg (by omega)]
  rw [List.take_append_of_le_length hlen, hbad]
  simp only [Bool.false_eq_true, if_false]
  rw [List.drop_append_of_le_length (by omega)]

lemma stepAligned_append_emit {b f b2 : List Nat} (h : stepAligned b = .emit f b2)
    (d : List Nat) : stepAligned (b ++ d) = .emit f (b2 ++ d) := by
  obtain ⟨h4, hlen, hgood, hf, hb2⟩ := stepAligned_emit_eq h
  subst hf; subst hb2
  have hL : (b ++ d).length = b.length + d.length := List.length_append b d
  have hr : readUInt16BE (b ++ d) 2 = readUInt16BE b 2 := readUInt16BE_append d h4
  simp only [stepAligned, hr]
  rw [if_neg (by omega), if_neg (by omega)]
  rw [List.take_append_of_le_length hlen, hgood]
  simp only [if_true]
  rw [List.drop_append_of_le_length hlen]

lemma reassembleStep_nil : reassembleStep [] = .stop [] := rfl

/-- A corrupt-candidate step strictly shrinks the buffer (by the trimmed
prefix plus the 2 marker bytes). -/
lemma step_drop_length {b b2 : List Nat} (h : reassembleStep b = .drop b2) :
    b2.length + 2 ≤ b.length := by
  unfold reassembleStep at h
  cases hf : findStart b with
  | none => rw [hf] at h; cases h
  | some i =>
    rw [hf] at h
    obtain ⟨h4, _, _, rfl⟩ := stepAligned_drop_eq h
    have hi := findStart_le_length hf
    simp only [List.length_drop] at h4 ⊢
    omega

/-- A frame-emitting step strictly shrinks the buffer (by at least the
2 end-marker bytes). -/
lemma step_emit_length {b f b2 : List Nat} (h : reassembleStep b = .emit f b2) :
    b2.length + 2 ≤ b.length := by
  unfold reassembleStep at h
  cases hf : findStart b with
  | none => rw [hf] at h; cases h
  | some i =>
    rw [hf] at h
    obtain ⟨h4, hlen, hgood, hf2, rfl⟩ := stepAligned_emit_eq h
    have hi := findStart_le_length hf
    have hcand : ((b.drop i).take (readUInt16BE (b.drop i) 2)).length
        = readUInt16BE (b.drop i) 2 := by
      simp only [List.length_take, List.length_drop]
      simp only [List.length_drop] at hlen
      omega
    have h2 := endOk_two_le hcand hgood
    simp only [List.length_drop] at h4 hlen ⊢
    omega

lemma reassembleRun_nil (f : Nat) : reassembleRun f [] = ([], []) := by
  cases f with
  | zero => rfl
  | succ g => rfl

/-- Any fuel at least the buffer length gives the same run result. -/
lemma reassembleRun_fuel :
    ∀ (n : Nat) {b : List Nat} {f1 f2 : Nat}, b.length ≤ n →
      b.length ≤ f1 → b.length ≤ f2 → reassembleRun f1 b = reassembleRun f2 b := by
  intro n
  induction n with
  | zero =>
    intro b f1 f2 hn _ _
    have hb : b = [] := List.eq_nil_of_length_eq_zero (by omega)
    subst hb
    rw [reassembleRun_nil, reassembleRun_nil]
  | succ n ih =>
    intro b f1 f2 hn h1 h2
    cases f1 with
    | zero =>
      have hb : b = [] := List.eq_nil_of_length_eq_zero (by omega)
      subst hb
      rw [reassembleRun_nil, reassembleRun_nil]
    | succ g1 =>
      cases f2 with
      | zero =>
        have hb : b = [] := List.eq_nil_of_length_eq_zero (by omega)
        subst hb
        rw [reassembleRun_nil, reassembleRun_nil]
      | succ g2 =>
        simp only [reassembleRun]
        cases hs : reassembleStep b with
        | stop r => rfl
        | drop b2 =>
          have := step_drop_length hs
          exact ih (by omega) (by omega) (by omega)
        | emit f b2 =>
          have hd := step_emit_length hs
          have hr : reassembleRun g1 b2 = reassembleRun g2 b2 :=
            ih (by omega) (by omega) (by omega)
          show ((reassembleRun g1 b2).1, f :: (reassembleRun g1 b2).2)
              = ((reassembleRun g2 b2).1, f :: (reassembleRun g2 b2).2)
          rw [hr]

lemma reassembleRun_eq_reassemble {b : List Nat} {f : Nat} (h : b.length ≤ f) :
    reassembleRun f b = reassemble b :=
  reassembleRun_fuel f h h le_rfl

/-- Running `reassemble` on a buffer whose first step defers: nothing is delivered. -/
lemma reassemble_of_stop {b r : List Nat} (h : reassembleStep b = .stop r) :
    reassemble b = (r, []) := by
  cases b with
  | nil =>
    rw [reassembleStep_nil] at h
    cases h
    rfl
  | cons a t =>
    unfold reassemble
    simp only [List.length_cons, reassembleRun]
    rw [h]

/-- Running `reassemble` through a corrupt-candidate step. -/
lemma reassemble_of_drop {b b2 : List Nat} (h : reassembleStep b = .drop b2) :
    reassemble b = reassemble b2 := by
  have hl := step_drop_length h
  have hb : b.length = (b.length - 1) + 1 := by omega
  unfold reassemble
  rw [hb]
  simp only [reassembleRun]
  rw [h]
  exact reassembleRun_eq_reassemble (by omega)

/-- Running `reassemble` through a frame-emitting step. -/
lemma reassemble_of_emit {b f b2 : List Nat} (h : reassembleStep b = .emit f b2) :
    reassemble b = ((reassemble b2).1, f :: (reassemble b2).2) := by
  have hl := step_emit_length h
  have hb : b.length = (b.length - 1) + 1 := by omega
  have hr : reassembleRun (b.length - 1) b2 = reassemble b2 :=
    reassembleRun_eq_reassemble (by omega)
  unfold reassemble
  rw [hb]
  simp only [reassembleRun]
  rw [h]
  show ((reassembleRun (b.length - 1) b2).1, f :: (reassembleRun (b.length - 1) b2).2)
      = ((reassemble b2).1, f :: (reassemble b2).2)
  rw [hr]

/-- A deferring step is idempotent: the kept residual defers again
(nothing was consumed, so nothing new can be found). -/
lemma step_stop_fixed {b r : List Nat} (h : reassembleStep b = .stop r) :
    reassembleStep r = .stop r := by
  unfold reassembleStep at h
  cases hf : findStart b with
  | none =>
    rw [hf] at h
    cases h
    unfold reassembleStep
    rw [hf]
  | some i =>
    rw [hf] at h
    have h2 : stepAligned (b.drop i) = .stop r := h
    have hr := stepAligned_stop_eq h2
    subst hr
    obtain ⟨t, ht⟩ := findStart_drop hf
    rw [ht] at h2 ⊢
    exact h2

/-- When a step defers, appending data and re-stepping behaves exactly like
stepping the kept residual with the data appended. -/
lemma reassembleStep_append_stop {b r : List Nat} (h : reassembleStep b = .stop r)
    (d : List Nat) : reassembleStep (b ++ d) = reassembleStep (r ++ d) := by
  unfold reassembleStep at h
  cases hf : findStart b with
  | none =>
    rw [hf] at h
    cases h
    rfl
  | some i =>
    rw [hf] at h
    have hr := stepAligned_stop_eq h
    subst hr
    have hi := findStart_le_length hf
    obtain ⟨t, ht⟩ := findStart_drop hf
    have hbd : (b ++ d).drop i = b.drop i ++ d :=
      List.drop_append_of_le_length (by omega)
    unfold reassembleStep
    rw [findStart_append hf d]
    show stepAligned ((b ++ d).drop i) = _
    rw [hbd, ht, List.cons_append, List.cons_append, findStart_marker]
    rfl

/-- A corrupt-candidate step is unaffected by data appended after it. -/
lemma reassembleStep_append_drop {b b2 : List Nat} (h : reassembleStep b = .drop b2)
    (d : List Nat) : reassembleStep (b ++ d) = .drop (b2 ++ d) := by
  unfold reassembleStep at h
  cases hf : findStart b with
  | none => rw [hf] at h; cases h
  | some i =>
    rw [hf] at h
    have hi := findStart_le_length hf
    have hbd : (b ++ d).drop i = b.drop i ++ d :=
      List.drop_append_of_le_length (by omega)
    unfold reassembleStep
    rw [findStart_append hf d]
    show stepAligned ((b ++ d).drop i) = _
    rw [hbd]
    exact stepAligned_append_drop h d

/-- A frame-emitting step is unaffected by data appended after it. -/
lemma reassembleStep_append_emit {b f b2 : List Nat} (h : reassembleStep b = .emit f b2)
    (d : List Nat) : reassembleStep (b ++ d) = .emit f (b2 ++ d) := by
  unfold reassembleStep at h
  cases hf : findStart b with
  | none => rw [hf] at h; cases h
  | some i =>
    rw [hf] at h
    have hi := findStart_le_length hf
    have hbd : (b ++ d).drop i = b.drop i ++ d :=
      List.drop_append_of_le_length (by omega)
    unfold reassembleStep
    rw [findStart_append hf d]
    show stepAligned ((b ++ d).drop i) = _
    rw [hbd]
    exact stepAligned_append_emit h d

/-- Composition: running the reassembler on `b ++ d` is the same as running
it on `b`, keeping the frames, and running again on the residual followed by
`d`.  This is the heart of chunking-invariance. -/
lemma reassemble_append :
    ∀ (n : Nat) (b : List Nat), b.length ≤ n → ∀ (d : List Nat),
      reassemble (b ++ d)
        = ((reassemble ((reassemble b).1 ++ d)).1,
            (reassemble b).2 ++ (reassemble ((reassemble b).1 ++ d)).2) := by
  intro n
  induction n with
  | zero =>
    intro b hb d
    have hnil : b = [] := List.eq_nil_of_length_eq_zero (by omega)
    subst hnil
    simp [reassemble, reassembleRun_nil]
  | succ n ih =>
    intro b hb d
    cases hs : reassembleStep b with
    | stop r =>
      rw [reassemble_of_stop hs]
      have h1 : reassemble (b ++ d) = reassemble (r ++ d) := by
        cases hsd : reassembleStep (b ++ d) with
        | stop r2 =>
          rw [reassemble_of_stop hsd]
          rw [reassembleStep_append_stop hs d] at hsd
          rw [reassemble_of_stop hsd]
        | drop c2 =>
          rw [reassemble_of_drop hsd]
          rw [reassembleStep_append_stop hs d] at hsd
          rw [reassemble_of_drop hsd]
        | emit f c2 =>
          rw [reassemble_of_emit hsd]
          rw [reassembleStep_append_stop hs d] at hsd
          rw [reassemble_of_emit hsd]
      simpa using h1
    | drop b2 =>
      have hd := step_drop_length hs
      rw [reassemble_of_drop hs,
        reassemble_of_drop (reassembleStep_append_drop hs d)]
      exact ih b2 (by omega) d
    | emit f b2 =>
      have hd := step_emit_length hs
      rw [reassemble_of_emit hs,
        reassemble_of_emit (reassembleStep_append_emit hs d)]
      rw [ih b2 (by omega) d]
      simp

/-- The residual buffer left by a full run is quiescent: stepping it defers
without consuming anything. -/
lemma reassemble_residual :
    ∀ (n : Nat) (b : List Nat), b.length ≤ n →
      reassembleStep ((reassemble b).1) = .stop ((reassemble b).1) := by
  intro n
  induction n with
  | zero =>
    intro b hb
    have hnil : b = [] := List.eq_nil_of_length_eq_zero (by omega)
    subst hnil
    rw [reassemble_of_stop reassembleStep_nil]
    rfl
  | succ n ih =>
    intro b hb
    cases hs : reassembleStep b with
    | stop r =>
      rw [reassemble_of_stop hs]
      exact step_stop_fixed hs
    | drop b2 =>
      have hd := step_drop_length hs
      rw [reassemble_of_drop hs]
      exact ih b2 (by omega)
    | emit f b2 =>
      have hd := step_emit_length hs
      rw [reassemble_of_emit hs]
      exact ih b2 (by omega)

/-- Feed a list of data chunks one `handleMessage` call at a time, starting
from buffer `buf`; collect every frame delivered across all calls. -/
def feedMany : List Nat → List (List Nat) → List Nat × List (List Nat)
  | buf, [] => (buf, [])
  | buf, c :: cs =>
    let p := handleMessage buf c
    let q := feedMany p.1 cs
    (q.1, p.2 ++ q.2)

lemma feedMany_quiescent :
    ∀ (cs : List (List Nat)) (r : List Nat), reassembleStep r = .stop r →
      feedMany r cs = reassemble (r ++ cs.flatten) := by
  intro cs
  induction cs with
  | nil =>
    intro r hr
    simp only [feedMany, List.flatten_nil, List.append_nil]
    rw [reassemble_of_stop hr]
  | cons c cs ih =>
    intro r hr
    have hcomp := reassemble_append (r ++ c).length (r ++ c) le_rfl cs.flatten
    have hres := reassemble_residual (r ++ c).length (r ++ c) le_rfl
    simp only [feedMany, handleMessage]
    rw [ih ((reassemble (r ++ c)).1) hres]
    rw [List.flatten_cons, ← List.append_assoc, hcomp]

/-- Outcome of `EclipseHCI.processMessage` on a validated frame. -/
inductive ProcessResult where
  /-- the length field disagrees with the frame's byte count: discarded. -/
  | lengthMismatch : ProcessResult
  /-- too short to contain message ID and flags (< 7 bytes): discarded. -/
  | tooShort : ProcessResult
  /-- header parsed but the body region is empty: logged as
  `Message contains no payload` and **not** handed to `ProcessHCI`. -/
  | noPayload (messageID flagsByte : Nat) (isV2 : Bool)
      (protocolVersion : Option Nat) : ProcessResult
  /-- header parsed and the payload handed to `ProcessHCI.handleMessageByID`. -/
  | delivered (messageID flagsByte : Nat) (isV2 : Bool)
      (protocolVersion : Option Nat) (payload : List Nat) : ProcessResult
deriving DecidableEq

/-- Model of `EclipseHCI.processMessage`: header extraction for one complete frame.
Reads the length field (validating it against the actual size), message ID
and flags, probes for the 4-byte HCIv2 signature `AB BA CE DE` at offset 7
(followed by a protocol-version byte), and slices the payload between the
header and the 2 end-marker bytes. -/
def processMessage (message : List Nat) : ProcessResult :=
  if readUInt16BE message 2 ≠ message.length then .lengthMismatch
  else if message.length < 7 then .tooShort
  else
    let messageID := readUInt16BE message 4
    let flagsByte := message.getD 6 0
    let isV2 : Bool :=
      decide (11 ≤ message.length) &&
        decide ((message.drop 7).take 4 = [0xAB, 0xBA, 0xCE, 0xDE])
    let protocolVersion : Option Nat :=
      if isV2 ∧ 12 ≤ message.length then some (message.getD 11 0) else none
    let payloadStart : Nat :=
      if isV2 then (if 12 ≤ message.length then 12 else 11) else 7
    let payloadEnd := message.length - 2
    if payloadEnd ≤ payloadStart then
      .noPayload messageID flagsByte isV2 protocolVersion
    else
      .delivered messageID flagsByte isV2 protocolVersion
        ((message.drop payloadStart).take (payloadEnd - payloadStart))

/-- A byte sequence that is one well-formed frame: it opens with the start
marker, its big-endian length field equals its byte count, and it passes the
end-marker check. -/
def isValidFrame (f : List Nat) : Prop :=
  f.take 2 = startBytes ∧ 4 ≤ f.length ∧
    readUInt16BE f 2 = f.length ∧ endOk f f.length = true

instance (f : List Nat) : Decidable (isValidFrame f) := by
  unfold isValidFrame
  infer_instance

/-- A buffer that is one well-formed frame followed by anything at all is
stepped by emitting exactly that frame. -/
lemma step_emits_valid_frame {f : List Nat} (t : List Nat) (hf : isValidFrame f) :
    reassembleStep (f ++ t) = .emit f t := by
  obtain ⟨hstart, h4, hlenf, hend⟩ := hf
  obtain ⟨f2, hf2⟩ : ∃ f2, f = 0x5A :: 0x0F :: f2 := by
    cases f with
    | nil => simp [startBytes] at hstart
    | cons a f1 =>
      cases f1 with
      | nil => simp [startBytes] at hstart h4
      | cons b f2 =>
        simp only [List.take, startBytes, List.cons.injEq] at hstart
        exact ⟨f2, by simp [hstart.1, hstart.2.1]⟩
  unfold reassembleStep
  rw [hf2, List.cons_append, List.cons_append, findStart_marker, ← List.cons_append,
    ← List.cons_append, ← hf2]
  show stepAligned ((f ++ t).drop 0) = .emit f t
  rw [List.drop_zero]
  have hr : readUInt16BE (f ++ t) 2 = f.length := by
    rw [readUInt16BE_append t h4, hlenf]
  simp only [stepAligned, hr]
  rw [if_neg (by simp; omega), if_neg (by simp)]
  rw [List.take_left, hend]
  simp only [if_true]
  rw [List.drop_left]

end EclipseHCI

open EclipseHCI

/-- C1: when the buffer opens with the start marker, a length field is
readable, at least that many bytes are buffered, and the length-sized
candidate fails the end-marker check, `handleMessage` removes exactly the
2 start-marker bytes (not the whole candidate); a well-formed frame whose
bytes begin immediately after those 2 bytes is still delivered to the
header parser in the same call, as the first delivered frame. -/
theorem c1_corrupt_candidate_drops_only_marker (b f t : List Nat)
    (hstart : b.take 2 = startBytes)
    (h4 : 4 ≤ b.length)
    (hlen : readUInt16BE b 2 ≤ b.length)
    (hbad : endOk (b.take (readUInt16BE b 2)) (readUInt16BE b 2) = false)
    (hrest : b.drop 2 = f ++ t)
    (hf : isValidFrame f) :
    reassembleStep b = .drop (b.drop 2) ∧
      ∃ r rest, reassemble b = (r, f :: rest) := by
  obtain ⟨b2, hb2⟩ : ∃ b2, b = 0x5A :: 0x0F :: b2 := by
    cases b with
    | nil => simp [startBytes] at hstart
    | cons a t1 =>
      cases t1 with
      | nil => simp [startBytes] at hstart h4
      | cons c t2 =>
        simp only [List.take, startBytes, List.cons.injEq] at hstart
        exact ⟨t2, by simp [hstart.1, hstart.2.1]⟩
  have hstep : reassembleStep b = .drop (b.drop 2) := by
    unfold reassembleStep
    rw [hb2, findStart_marker, ← hb2]
    show stepAligned (b.drop 0) = .drop (b.drop 2)
    rw [List.drop_zero]
    simp only [stepAligned]
    rw [if_neg (by omega), if_neg (by omega), hbad]
    simp
  refine ⟨hstep, ?_⟩
  have hnext : reassembleStep (b.drop 2) = .emit f t := by
    rw [hrest]
    exact step_emits_valid_frame t hf
  rw [reassemble_of_drop hstep, hrest, reassemble_of_emit (hrest ▸ hnext)]
  exact ⟨_, _, rfl⟩

/-- The concrete frame used to witness C1: a 6-byte valid frame. -/
def c1Frame : List Nat := [0x5A, 0x0F, 0x00, 0x06, 0x2E, 0x8D]

/-- Padding after the C1 witness frame.  Its size is forced: the corrupt
candidate's length field is read from the first two bytes of `c1Frame`
(`0x5A0F = 23055`), so the buffer must hold 23055 bytes. -/
def c1Tail : List Nat := List.replicate 23047 0

/-- The C1 witness buffer: start marker, then the valid frame, then padding. -/
def c1Buffer : List Nat := 0x5A :: 0x0F :: (c1Frame ++ c1Tail)

theorem c1_witness :
    c1Buffer.take 2 = startBytes ∧ 4 ≤ c1Buffer.length ∧
      readUInt16BE c1Buffer 2 ≤ c1Buffer.length ∧
      endOk (c1Buffer.take (readUInt16BE c1Buffer 2)) (readUInt16BE c1Buffer 2) = false ∧
      c1Buffer.drop 2 = c1Frame ++ c1Tail ∧ isValidFrame c1Frame ∧
      (reassembleStep c1Buffer = .drop (c1Buffer.drop 2) ∧
        ∃ r rest, reassemble c1Buffer = (r, c1Frame :: rest)) := by
  have htail : c1Tail.length = 23047 := by
    rw [show c1Tail = List.replicate 23047 0 from rfl, List.length_replicate]
  have hL : c1Buffer.length = 23055 := by
    show (0x5A :: 0x0F :: (c1Frame ++ c1Tail)).length = 23055
    rw [List.length_cons, List.length_cons, List.length_append,
      show c1Frame.length = 6 from rfl, htail]
  have hread : readUInt16BE c1Buffer 2 = 23055 := rfl
  have htake : c1Buffer.take 23055 = c1Buffer := List.take_of_length_le (by rw [hL])
  have hdrop : c1Buffer.drop 23053 = [0, 0] := by
    show (([0x5A, 0x0F, 0x5A, 0x0F, 0x00, 0x06, 0x2E, 0x8D] : List Nat)
        ++ List.replicate 23047 0).drop 23053 = [0, 0]
    rw [show (23053 : Nat) = ([0x5A, 0x0F, 0x5A, 0x0F, 0x00, 0x06, 0x2E, 0x8D] :
        List Nat).length + 23045 from rfl]
    rw [List.drop_append, List.drop_replicate]
    rfl
  have hbad : endOk (c1Buffer.take (readUInt16BE c1Buffer 2))
      (readUInt16BE c1Buffer 2) = false := by
    rw [hread, htake]
    have hsub : nodeSubarrayFrom c1Buffer (23053 : Int) = [0, 0] := by
      unfold nodeSubarrayFrom
      rw [if_neg (by norm_num)]
      rw [show ((23053 : Int)).toNat = 23053 from rfl]
      rw [hL]
      rw [show min 23053 23055 = 23053 by norm_num]
      exact hdrop
    simp [endOk, hsub, endBytes]
  have hstart : c1Buffer.take 2 = startBytes := rfl
  have h4 : 4 ≤ c1Buffer.length := by rw [hL]; norm_num
  have hlen : readUInt16BE c1Buffer 2 ≤ c1Buffer.length := by rw [hread, hL]
  have hrest : c1Buffer.drop 2 = c1Frame ++ c1Tail := rfl
  have hf : isValidFrame c1Frame := by decide
  exact ⟨hstart, h4, hlen, hbad, hrest, hf,
    c1_corrupt_candidate_drops_only_marker c1Buffer c1Frame c1Tail
      hstart h4 hlen hbad hrest hf⟩

/-- C4: feeding a byte stream split into arbitrary chunks through successive
`handleMessage` calls (starting from an empty buffer) delivers exactly the
same frames, in the same order, and leaves the same residual buffer, as
feeding the whole concatenation in a single call. -/
theorem c4_chunking_invariance (chunks : List (List Nat)) :
    feedMany [] chunks = handleMessage [] chunks.flatten := by
  have h := feedMany_quiescent chunks [] reassembleStep_nil
  simpa [handleMessage] using h

/-- C7 (claim as stated is false): feeding the spec's byte sequence
`5A 0F 00 0B 00 0D 08 AB BA CE DE 01 2E 8D` to the reassembler from an
empty buffer delivers no message at all — its length field `0x000B` (11)
does not match the 14-byte frame, so byte 11 of the candidate fails the
end-marker check, the 2 start-marker bytes are dropped, and the remaining
12 bytes (which contain no further start marker) stay buffered. -/
theorem c7_counterexample :
    handleMessage []
        [0x5A, 0x0F, 0x00, 0x0B, 0x00, 0x0D, 0x08, 0xAB, 0xBA, 0xCE, 0xDE,
          0x01, 0x2E, 0x8D]
      = ([0x00, 0x0B, 0x00, 0x0D, 0x08, 0xAB, 0xBA, 0xCE, 0xDE, 0x01, 0x2E, 0x8D],
          []) := by
  decide

/-- C7 (amended): with the length field corrected to `0x000E` (14, the
actual frame size), feeding `5A 0F 00 0E 00 0D 08 AB BA CE DE 01 2E 8D`
from an empty buffer hands exactly one validated frame to the header
parser and empties the buffer; parsing that frame yields messageId
`0x000D`, flags byte `0x08`, HCIv2, protocol version (sub-schema) `1`, and
an empty body — which `processMessage` reports as `no payload`, returning
before any handler callback. -/
theorem c7_amended :
    handleMessage []
        [0x5A, 0x0F, 0x00, 0x0E, 0x00, 0x0D, 0x08, 0xAB, 0xBA, 0xCE, 0xDE,
          0x01, 0x2E, 0x8D]
      = ([], [[0x5A, 0x0F, 0x00, 0x0E, 0x00, 0x0D, 0x08, 0xAB, 0xBA, 0xCE, 0xDE,
          0x01, 0x2E, 0x8D]]) ∧
    processMessage
        [0x5A, 0x0F, 0x00, 0x0E, 0x00, 0x0D, 0x08, 0xAB, 0xBA, 0xCE, 0xDE,
          0x01, 0x2E, 0x8D]
      = .noPayload 0x000D 0x08 true (some 1) := by
  constructor
  · decide
  · decide


namespace EclipseHCI

/-- The fields of the `HCIRequest` class that the queue and framing logic
read (`Timestamp` is write-only in the source and omitted). -/
structure HCIRequest where
  RequestID : Nat
  Data : List Nat
  Urgent : Bool
  ResponseID : Option Nat
  Version : Nat
  ProtocolVersion : Nat
deriving DecidableEq

/-- The `for` loop of `EclipseHCI.addToQueue`: walk from the front while
entries are urgent, returning the position just past the last urgent entry
of the leading urgent run (the first non-urgent entry breaks the loop). -/
def urgentInsertIndex : List HCIRequest → Nat
  | [] => 0
  | r :: rest => if r.Urgent then urgentInsertIndex rest + 1 else 0

/-- Model of `EclipseHCI.addToQueue`: urgent requests are spliced in right after the
queue's leading run of urgent requests; normal requests are appended. -/
def addToQueue (q : List HCIRequest) (r : HCIRequest) : List HCIRequest :=
  if r.Urgent then
    let i := urgentInsertIndex q
    q.take i ++ r :: q.drop i
  else q ++ [r]

/-- Model of `queue.findIndex(r => !r.Urgent)` from the alternate `enqueue`
implementation: position of the first non-urgent entry. -/
def findFirstNormal : List HCIRequest → Option Nat
  | [] => none
  | r :: rest =>
    if r.Urgent then (findFirstNormal rest).map (· + 1) else some 0

/-- The alternate `EclipseHCI.enqueue`: an urgent request is inserted just
before the first non-urgent entry (appended when every entry is urgent);
normal requests are appended. -/
def enqueue (q : List HCIRequest) (r : HCIRequest) : List HCIRequest :=
  if r.Urgent then
    match findFirstNormal q with
    | none => q ++ [r]
    | some idx => q.take idx ++ r :: q.drop idx
  else q ++ [r]

lemma urgentInsertIndex_partitioned (us ns : List HCIRequest)
    (hu : ∀ u ∈ us, u.Urgent = true) (hn : ∀ n ∈ ns, n.Urgent = false) :
    urgentInsertIndex (us ++ ns) = us.length := by
  induction us with
  | nil =>
    cases ns with
    | nil => rfl
    | cons n rest =>
      have := hn n (by simp)
      simp [urgentInsertIndex, this]
  | cons u us ih =>
    have hu0 := hu u (by simp)
    have ih2 := ih (fun x hx => hu x (by simp [hx]))
    simp only [List.cons_append, urgentInsertIndex, hu0, if_true, List.length_cons,
      List.append_eq, ih2]

lemma findFirstNormal_partitioned (us ns : List HCIRequest)
    (hu : ∀ u ∈ us, u.Urgent = true) (hn : ∀ n ∈ ns, n.Urgent = false) :
    findFirstNormal (us ++ ns)
      = if ns.isEmpty then none else some us.length := by
  induction us with
  | nil =>
    cases ns with
    | nil => rfl
    | cons n rest =>
      have := hn n (by simp)
      simp [findFirstNormal, this]
  | cons u us ih =>
    have hu0 := hu u (by simp)
    have ih2 := ih (fun x hx => hu x (by simp [hx]))
    simp only [List.cons_append, findFirstNormal, hu0, if_true, List.length_cons,
      List.append_eq, ih2]
    cases ns with
    | nil => rfl
    | cons n rest => rfl

lemma addToQueue_partitioned (us ns : List HCIRequest) (r : HCIRequest)
    (hu : ∀ u ∈ us, u.Urgent = true) (hn : ∀ n ∈ ns, n.Urgent = false) :
    addToQueue (us ++ ns) r
      = if r.Urgent then us ++ r :: ns else us ++ (ns ++ [r]) := by
  have hidx := urgentInsertIndex_partitioned us ns hu hn
  cases hr : r.Urgent with
  | true => simp [addToQueue, hr, hidx, List.take_left, List.drop_left]
  | false => simp [addToQueue, hr, List.append_assoc]

lemma enqueue_partitioned (us ns : List HCIRequest) (r : HCIRequest)
    (hu : ∀ u ∈ us, u.Urgent = true) (hn : ∀ n ∈ ns, n.Urgent = false) :
    enqueue (us ++ ns) r
      = if r.Urgent then us ++ r :: ns else us ++ (ns ++ [r]) := by
  have hidx := findFirstNormal_partitioned us ns hu hn
  cases hr : r.Urgent with
  | false => simp [enqueue, hr, List.append_assoc]
  | true =>
    cases ns with
    | nil =>
      simp only [List.isEmpty_nil, if_true, List.append_nil] at hidx
      simp [enqueue, hr, hidx]
    | cons n rest =>
      simp only [List.isEmpty_cons, Bool.false_eq_true, if_false] at hidx
      simp [enqueue, hr, hidx, List.take_left, List.drop_left]

lemma foldl_queue_partitioned
    (step : List HCIRequest → HCIRequest → List HCIRequest)
    (hstep : ∀ us ns r, (∀ u ∈ us, u.Urgent = true) → (∀ n ∈ ns, n.Urgent = false) →
      step (us ++ ns) r = if r.Urgent then us ++ r :: ns else us ++ (ns ++ [r])) :
    ∀ (rs us ns : List HCIRequest),
      (∀ u ∈ us, u.Urgent = true) → (∀ n ∈ ns, n.Urgent = false) →
      List.foldl step (us ++ ns) rs
        = (us ++ rs.filter (fun r => r.Urgent))
            ++ (ns ++ rs.filter (fun r => !r.Urgent)) := by
  intro rs
  induction rs with
  | nil =>
    intro us ns hu hn
    simp
  | cons r rs ih =>
    intro us ns hu hn
    rw [List.foldl_cons, hstep us ns r hu hn]
    by_cases hr : r.Urgent = true
    · rw [if_pos hr]
      have h1 : us ++ r :: ns = (us ++ [r]) ++ ns := by simp
      rw [h1, ih (us ++ [r]) ns
        (by intro u hu2; rcases List.mem_append.mp hu2 with h | h
            · exact hu u h
            · simp at h; simp [h, hr]) hn]
      simp [hr]
    · rw [if_neg hr]
      have h1 : us ++ (ns ++ [r]) = us ++ (ns ++ [r]) := rfl
      rw [ih us (ns ++ [r]) hu
        (by intro n hn2; rcases List.mem_append.mp hn2 with h | h
            · exact hn n h
            · simp at h; subst h; simpa using hr)]
      simp [hr]

end EclipseHCI


namespace EclipseHCI

/-- The connection state read by the queue dispatcher and the socket
close/error handlers. -/
structure ConnState where
  connected : Bool
  socketPresent : Bool
  isProcessingQueue : Bool
  queueTimerActive : Bool
  messageQueue : List HCIRequest
deriving DecidableEq

/-- One tick of `EclipseHCI.processQueue`: return untouched when the
in-flight guard is set, the connection is down, or the queue is empty;
otherwise shift exactly one request and pass it to `sendHCIRequest`, which
writes `request.Data` to the socket only when the socket is present and the
connection is up.  The result pairs the new state with the list of buffers
written to the transport during the tick. -/
def processQueue (s : ConnState) : ConnState × List (List Nat) :=
  if s.isProcessingQueue = true ∨ s.connected = false ∨ s.messageQueue = [] then
    (s, [])
  else
    match s.messageQueue with
    | [] => (s, [])
    | req :: rest =>
      let writes :=
        if s.socketPresent = true ∧ s.connected = true then [req.Data] else []
      ({ s with messageQueue := rest }, writes)

/-- The socket `close`/`error` handler of `EclipseHCI`: mark disconnected,
clear the socket handle, and stop the queue processor.  `messageQueue` is
not mentioned. -/
def handleSocketClose (s : ConnState) : ConnState :=
  { s with connected := false, socketPresent := false, queueTimerActive := false }

/-- Model of `EclipseHCI.clearQueue`: the only operation that empties the queue. -/
def clearQueue (s : ConnState) : ConnState :=
  { s with messageQueue := [] }

end EclipseHCI

/-- C5: enqueuing normal `A`, urgent `B`, normal `C` leaves the queue in
order `B, A, C` (under both the main `addToQueue` and the alternate
`enqueue`); in general, any sequence of enqueues from an empty queue yields
all urgent requests (in insertion order) followed by all normal requests
(in insertion order). -/
theorem c5_urgent_before_normal_stable_fifo :
    (∀ a b c : EclipseHCI.HCIRequest,
      a.Urgent = false → b.Urgent = true → c.Urgent = false →
        EclipseHCI.addToQueue (EclipseHCI.addToQueue (EclipseHCI.addToQueue [] a) b) c
            = [b, a, c]
          ∧ EclipseHCI.enqueue (EclipseHCI.enqueue (EclipseHCI.enqueue [] a) b) c
            = [b, a, c]) ∧
    ∀ rs : List EclipseHCI.HCIRequest,
      List.foldl EclipseHCI.addToQueue [] rs
          = rs.filter (fun r => r.Urgent) ++ rs.filter (fun r => !r.Urgent)
        ∧ List.foldl EclipseHCI.enqueue [] rs
          = rs.filter (fun r => r.Urgent) ++ rs.filter (fun r => !r.Urgent) := by
  constructor
  · intro a b c ha hb hc
    constructor
    · simp [EclipseHCI.addToQueue, EclipseHCI.urgentInsertIndex, ha, hb, hc]
    · simp [EclipseHCI.enqueue, EclipseHCI.findFirstNormal, ha, hb, hc]
  · intro rs
    constructor
    · have h := EclipseHCI.foldl_queue_partitioned EclipseHCI.addToQueue
        (fun us ns r hu hn => EclipseHCI.addToQueue_partitioned us ns r hu hn)
        rs [] [] (by simp) (by simp)
      simpa using h
    · have h := EclipseHCI.foldl_queue_partitioned EclipseHCI.enqueue
        (fun us ns r hu hn => EclipseHCI.enqueue_partitioned us ns r hu hn)
        rs [] [] (by simp) (by simp)
      simpa using h

/-- C5 witness: the `A`, `B`, `C` scenario at concrete requests. -/
theorem c5_witness :
    EclipseHCI.addToQueue (EclipseHCI.addToQueue (EclipseHCI.addToQueue []
        ⟨1, [1], false, none, 2, 1⟩) ⟨2, [2], true, none, 2, 1⟩)
        ⟨3, [3], false, none, 2, 1⟩
      = [⟨2, [2], true, none, 2, 1⟩, ⟨1, [1], false, none, 2, 1⟩,
          ⟨3, [3], false, none, 2, 1⟩]
    ∧ EclipseHCI.enqueue (EclipseHCI.enqueue (EclipseHCI.enqueue []
        ⟨1, [1], false, none, 2, 1⟩) ⟨2, [2], true, none, 2, 1⟩)
        ⟨3, [3], false, none, 2, 1⟩
      = [⟨2, [2], true, none, 2, 1⟩, ⟨1, [1], false, none, 2, 1⟩,
          ⟨3, [3], false, none, 2, 1⟩] :=
  c5_urgent_before_normal_stable_fifo.1
    ⟨1, [1], false, none, 2, 1⟩ ⟨2, [2], true, none, 2, 1⟩
    ⟨3, [3], false, none, 2, 1⟩ rfl rfl rfl

/-- C8: a dispatcher tick writes at most one buffer to the transport, and
writes nothing (leaving the state untouched where the source does) when the
in-flight guard is set, when the transport socket is absent, or when the
queue is empty. -/
theorem c8_one_write_per_tick (s : EclipseHCI.ConnState) :
    (EclipseHCI.processQueue s).2.length ≤ 1
    ∧ (s.isProcessingQueue = true → EclipseHCI.processQueue s = (s, []))
    ∧ (s.socketPresent = false → (EclipseHCI.processQueue s).2 = [])
    ∧ (s.messageQueue = [] → EclipseHCI.processQueue s = (s, [])) := by
  refine ⟨?_, ?_, ?_, ?_⟩
  · by_cases h : s.isProcessingQueue = true ∨ s.connected = false ∨ s.messageQueue = []
    · simp [EclipseHCI.processQueue, h]
    · push_neg at h
      obtain ⟨h1, h2, h3⟩ := h
      have h1b : s.isProcessingQueue = false := by simpa using h1
      have h2b : s.connected = true := by simpa using h2
      cases hq : s.messageQueue with
      | nil => exact absurd hq h3
      | cons req rest =>
        cases hsock : s.socketPresent with
        | true => simp [EclipseHCI.processQueue, h1b, h2b, h3, hq, hsock]
        | false => simp [EclipseHCI.processQueue, h1b, h2b, h3, hq, hsock]
  · intro h
    unfold EclipseHCI.processQueue
    rw [if_pos (Or.inl h)]
  · intro h
    by_cases hg : s.isProcessingQueue = true ∨ s.connected = false ∨ s.messageQueue = []
    · simp [EclipseHCI.processQueue, hg]
    · push_neg at hg
      obtain ⟨h1, h2, h3⟩ := hg
      have h1b : s.isProcessingQueue = false := by simpa using h1
      have h2b : s.connected = true := by simpa using h2
      cases hq : s.messageQueue with
      | nil => exact absurd hq h3
      | cons req rest =>
        simp [EclipseHCI.processQueue, h1b, h2b, h3, hq, h]
  · intro h
    unfold EclipseHCI.processQueue
    rw [if_pos (Or.inr (Or.inr h))]

/-- C8 witness: a state with the guard set, no socket, and an empty queue. -/
theorem c8_witness :
    (EclipseHCI.processQueue ⟨true, false, true, true, []⟩).2.length ≤ 1
    ∧ EclipseHCI.processQueue ⟨true, false, true, true, []⟩
        = (⟨true, false, true, true, []⟩, [])
    ∧ (EclipseHCI.processQueue ⟨true, false, true, true, []⟩).2 = [] :=
  ⟨(c8_one_write_per_tick ⟨true, false, true, true, []⟩).1,
    (c8_one_write_per_tick ⟨true, false, true, true, []⟩).2.1 rfl,
    (c8_one_write_per_tick ⟨true, false, true, true, []⟩).2.2.1 rfl⟩

/-- C10: the transport close/error handler stops the dispatch timer and
marks the connection disconnected while leaving the pending queue exactly
as it was; only the explicit `clearQueue` call empties it. -/
theorem c10_close_preserves_queue (s : EclipseHCI.ConnState) :
    (EclipseHCI.handleSocketClose s).messageQueue = s.messageQueue
    ∧ (EclipseHCI.handleSocketClose s).connected = false
    ∧ (EclipseHCI.handleSocketClose s).socketPresent = false
    ∧ (EclipseHCI.handleSocketClose s).queueTimerActive = false
    ∧ (EclipseHCI.clearQueue s).messageQueue = [] :=
  ⟨rfl, rfl, rfl, rfl, rfl⟩


namespace EclipseHCI

/-- Model of `HCIRequest.getRequest(flags)`: build the complete framed message.
Start marker, big-endian total length, big-endian message ID, flags byte
with the G bit (bit 3, `0x08`) forced set, then — for `Version = 2` — the
4-byte HCIv2 preamble `AB BA CE DE` and the protocol-version byte
(`Buffer.from` truncates it modulo 256), then the payload, then the end
marker.  `writeUInt16BE` / `writeUInt8` throw `ERR_OUT_OF_RANGE` for values
that do not fit, modelled by returning `none`. -/
def getRequest (r : HCIRequest) (flags : Nat) : Option (List Nat) :=
  let finalFlags := flags ||| 0x08
  if r.Version = 2 then
    let totalLength := 2 + 2 + 2 + 1 + 4 + 1 + r.Data.length + 2
    if totalLength ≤ 0xFFFF ∧ r.RequestID ≤ 0xFFFF ∧ finalFlags ≤ 0xFF then
      some (startBytes ++ u16BE totalLength ++ u16BE r.RequestID ++ [finalFlags]
        ++ [0xAB, 0xBA, 0xCE, 0xDE] ++ [r.ProtocolVersion % 256]
        ++ r.Data ++ endBytes)
    else none
  else
    let totalLength := 2 + 2 + 2 + 1 + r.Data.length + 2
    if totalLength ≤ 0xFFFF ∧ r.RequestID ≤ 0xFFFF ∧ finalFlags ≤ 0xFF then
      some (startBytes ++ u16BE totalLength ++ u16BE r.RequestID ++ [finalFlags]
        ++ r.Data ++ endBytes)
    else none

lemma readUInt16BE_u16BE_prefix (n : Nat) (rest : List Nat) :
    readUInt16BE (u16BE n ++ rest) 0 = 256 * (n / 256) + n % 256 := rfl

end EclipseHCI

/-- C9: every frame actually returned by `HCIRequest.getRequest` (either
protocol generation, any payload and flags) starts with `5A 0F`, ends with
`2E 8D`, carries a big-endian length field at offset 2 equal to the total
frame byte count, and has bit 3 (`0x08`) of its flags byte (offset 6) set. -/
theorem c9_getRequest_framing (r : EclipseHCI.HCIRequest) (flags : Nat)
    (frame : List Nat) (h : EclipseHCI.getRequest r flags = some frame) :
    frame.take 2 = EclipseHCI.startBytes
    ∧ frame.drop (frame.length - 2) = EclipseHCI.endBytes
    ∧ EclipseHCI.readUInt16BE frame 2 = frame.length
    ∧ Nat.testBit (frame.getD 6 0) 3 = true := by
  unfold EclipseHCI.getRequest at h
  by_cases hv : r.Version = 2
  · rw [if_pos hv] at h
    set tl := 2 + 2 + 2 + 1 + 4 + 1 + r.Data.length + 2 with htl
    by_cases hg : tl ≤ 0xFFFF ∧ r.RequestID ≤ 0xFFFF ∧ (flags ||| 0x08) ≤ 0xFF
    · rw [if_pos hg] at h
      injection h with hfr
      subst hfr
      have hlen : (EclipseHCI.startBytes ++ EclipseHCI.u16BE tl
          ++ EclipseHCI.u16BE r.RequestID ++ [flags ||| 0x08]
          ++ [0xAB, 0xBA, 0xCE, 0xDE] ++ [r.ProtocolVersion % 256]
          ++ r.Data ++ EclipseHCI.endBytes).length = tl := by
        simp [EclipseHCI.startBytes, EclipseHCI.endBytes, EclipseHCI.u16BE, htl]
        omega
      refine ⟨rfl, ?_, ?_, ?_⟩
      · rw [hlen]
        have hshape : EclipseHCI.startBytes ++ EclipseHCI.u16BE tl
            ++ EclipseHCI.u16BE r.RequestID ++ [flags ||| 0x08]
            ++ [0xAB, 0xBA, 0xCE, 0xDE] ++ [r.ProtocolVersion % 256]
            ++ r.Data ++ EclipseHCI.endBytes
            = (EclipseHCI.startBytes ++ EclipseHCI.u16BE tl
                ++ EclipseHCI.u16BE r.RequestID ++ [flags ||| 0x08]
                ++ [0xAB, 0xBA, 0xCE, 0xDE] ++ [r.ProtocolVersion % 256]
                ++ r.Data) ++ EclipseHCI.endBytes := by
          simp [List.append_assoc]
        rw [hshape]
        have hpre : (EclipseHCI.startBytes ++ EclipseHCI.u16BE tl
            ++ EclipseHCI.u16BE r.RequestID ++ [flags ||| 0x08]
            ++ [0xAB, 0xBA, 0xCE, 0xDE] ++ [r.ProtocolVersion % 256]
            ++ r.Data).length = tl - 2 := by
          simp [EclipseHCI.startBytes, EclipseHCI.u16BE, htl]
          omega
        rw [← hpre, List.drop_left]
      · rw [hlen]
        show 256 * (tl / 256) + tl % 256 = tl
        exact Nat.div_add_mod tl 256
      · show Nat.testBit (flags ||| 0x08) 3 = true
        rw [Nat.testBit_or]
        have h8 : Nat.testBit 8 3 = true := by decide
        rw [h8, Bool.or_true]
    · rw [if_neg hg] at h
      cases h
  · rw [if_neg hv] at h
    set tl := 2 + 2 + 2 + 1 + r.Data.length + 2 with htl
    by_cases hg : tl ≤ 0xFFFF ∧ r.RequestID ≤ 0xFFFF ∧ (flags ||| 0x08) ≤ 0xFF
    · rw [if_pos hg] at h
      injection h with hfr
      subst hfr
      have hlen : (EclipseHCI.startBytes ++ EclipseHCI.u16BE tl
          ++ EclipseHCI.u16BE r.RequestID ++ [flags ||| 0x08]
          ++ r.Data ++ EclipseHCI.endBytes).length = tl := by
        simp [EclipseHCI.startBytes, EclipseHCI.endBytes, EclipseHCI.u16BE, htl]
        omega
      refine ⟨rfl, ?_, ?_, ?_⟩
      · rw [hlen]
        have hshape : EclipseHCI.startBytes ++ EclipseHCI.u16BE tl
            ++ EclipseHCI.u16BE r.RequestID ++ [flags ||| 0x08]
            ++ r.Data ++ EclipseHCI.endBytes
            = (EclipseHCI.startBytes ++ EclipseHCI.u16BE tl
                ++ EclipseHCI.u16BE r.RequestID ++ [flags ||| 0x08]
                ++ r.Data) ++ EclipseHCI.endBytes := by
          simp [List.append_assoc]
        rw [hshape]
        have hpre : (EclipseHCI.startBytes ++ EclipseHCI.u16BE tl
            ++ EclipseHCI.u16BE r.RequestID ++ [flags ||| 0x08]
            ++ r.Data).length = tl - 2 := by
          simp [EclipseHCI.startBytes, EclipseHCI.u16BE, htl]
          omega
        rw [← hpre, List.drop_left]
      · rw [hlen]
        show 256 * (tl / 256) + tl % 256 = tl
        exact Nat.div_add_mod tl 256
      · show Nat.testBit (flags ||| 0x08) 3 = true
        rw [Nat.testBit_or]
        have h8 : Nat.testBit 8 3 = true := by decide
        rw [h8, Bool.or_true]
    · rw [if_neg hg] at h
      cases h

/-- C9 witness: a generation-2 request with a 1-byte payload. -/
theorem c9_witness :
    EclipseHCI.getRequest ⟨0x0026, [0xAA], false, none, 2, 1⟩ 0
        = some [0x5A, 0x0F, 0x00, 0x0F, 0x00, 0x26, 0x08, 0xAB, 0xBA, 0xCE,
            0xDE, 0x01, 0xAA, 0x2E, 0x8D]
    ∧ ([0x5A, 0x0F, 0x00, 0x0F, 0x00, 0x26, 0x08, 0xAB, 0xBA, 0xCE,
          0xDE, 0x01, 0xAA, 0x2E, 0x8D] : List Nat).take 2 = EclipseHCI.startBytes := by
  have h : EclipseHCI.getRequest ⟨0x0026, [0xAA], false, none, 2, 1⟩ 0
      = some [0x5A, 0x0F, 0x00, 0x0F, 0x00, 0x26, 0x08, 0xAB, 0xBA, 0xCE,
          0xDE, 0x01, 0xAA, 0x2E, 0x8D] := by decide
  exact ⟨h, (c9_getRequest_framing ⟨0x0026, [0xAA], false, none, 2, 1⟩ 0 _ h).1⟩


namespace LevelConversion

/-- A dB value as produced by `LevelConversion`: either JavaScript's
`Number.NEGATIVE_INFINITY` (full cut) or a finite number.  Finite JS doubles
are idealized as exact rationals; every input exercised by the design
document's properties takes a special-case or reference-table path on which
the code performs no floating-point arithmetic, so the idealization is
exact there. -/
inductive DB where
  | negInf : DB
  | fin : Rat → DB
deriving DecidableEq

/-- One row of `LEVEL_REFERENCE_TABLE`. -/
structure LevelTableEntry where
  dB : Int
  level : Nat
  hex : Nat
deriving DecidableEq

/-- Table `LevelConversion.LEVEL_REFERENCE_TABLE`, byte for byte from the source. -/
def LEVEL_REFERENCE_TABLE : List LevelTableEntry :=
  [⟨-90, 0, 0x0000⟩, ⟨-72, 18, 0x0012⟩, ⟨-66, 35, 0x0023⟩, ⟨-60, 52, 0x0034⟩,
    ⟨-54, 69, 0x0045⟩, ⟨-48, 86, 0x0056⟩, ⟨-42, 103, 0x0067⟩, ⟨-36, 119, 0x0077⟩,
    ⟨-30, 136, 0x0088⟩, ⟨-24, 153, 0x0099⟩, ⟨-18, 170, 0x00AA⟩, ⟨-12, 179, 0x00B3⟩,
    ⟨-9, 187, 0x00BB⟩, ⟨-6, 196, 0x00C4⟩, ⟨-3, 204, 0x00CC⟩, ⟨0, 212, 0x00D4⟩,
    ⟨3, 221, 0x00DD⟩, ⟨6, 229, 0x00E5⟩, ⟨9, 238, 0x00EE⟩, ⟨12, 246, 0x00F6⟩,
    ⟨15, 255, 0x00FF⟩, ⟨18, 263, 0x0107⟩, ⟨21, 272, 0x0110⟩, ⟨24, 280, 0x0118⟩,
    ⟨27, 287, 0x011F⟩]

/-- JavaScript `Math.round`: round half toward positive infinity. -/
def jsRound (q : Rat) : Int := Int.floor (q + 1 / 2)

/-- Model of `LevelConversion.dBToLevel`: negative infinity or anything below −72 dB
is level 0; an exact reference-table dB returns the table level; otherwise
`Math.round(dB / 0.355 + 204)` clamped into `0..287`. -/
def dBToLevel (db : DB) : Nat :=
  match db with
  | .negInf => 0
  | .fin q =>
    if q < -72 then 0
    else
      match LEVEL_REFERENCE_TABLE.find? (fun e => (e.dB : Rat) = q) with
      | some e => e.level
      | none => (max 0 (min 287 (jsRound (q / (355 / 1000) + 204)))).toNat

/-- Model of `LevelConversion.levelToDB` (level values are integers in every caller,
so the argument is a `Nat`): level 0 is negative infinity; an exact
reference-table level returns the table dB; otherwise
`(level − 204) × 0.355`. -/
def levelToDB (level : Nat) : DB :=
  if level = 0 then .negInf
  else
    match LEVEL_REFERENCE_TABLE.find? (fun e => e.level = level) with
    | some e => .fin (e.dB : Rat)
    | none => .fin (((level : Rat) - 204) * (355 / 1000))

/-- Model of `LevelConversion.isValidLevel` on the `Nat` model (the `Number.isInteger`
and `level >= 0` conjuncts hold by construction). -/
def isValidLevel (level : Nat) : Bool := level ≤ 287

end LevelConversion

/-- C2 (claim as stated is false): `levelToDB(204)` returns −3 dB, not
0 dB, and `dBToLevel(0)` returns 212, not 204 — the reference table, which
both functions consult before the formula, maps level 204 to −3 dB and
0 dB to level 212. -/
theorem c2_counterexample :
    LevelConversion.levelToDB 204 = LevelConversion.DB.fin (-3)
    ∧ LevelConversion.levelToDB 204 ≠ LevelConversion.DB.fin 0
    ∧ LevelConversion.dBToLevel (LevelConversion.DB.fin 0) = 212 := by
  refine ⟨?_, ?_, ?_⟩ <;> decide

/-- C2 (amended): `levelToDB(204) = −3 dB` and `dBToLevel(0 dB) = 212`
(the reference table takes precedence over the linear formula);
`levelToDB(0)` is negative infinity and `dBToLevel(−∞) = 0`; and
`dBToLevel(levelToDB(x)) = x` for every level `x` in the reference table. -/
theorem c2_amended :
    LevelConversion.levelToDB 204 = LevelConversion.DB.fin (-3)
    ∧ LevelConversion.dBToLevel (LevelConversion.DB.fin 0) = 212
    ∧ LevelConversion.levelToDB 0 = LevelConversion.DB.negInf
    ∧ LevelConversion.dBToLevel LevelConversion.DB.negInf = 0
    ∧ ∀ e ∈ LevelConversion.LEVEL_REFERENCE_TABLE,
        LevelConversion.dBToLevel (LevelConversion.levelToDB e.level) = e.level := by
  refine ⟨by decide, by decide, by decide, by decide, by decide⟩


/-- One entry of `RequestCrosspointLevelActions`: user-facing 1-indexed
ports (converted to 0-indexed on the wire) and a raw level value. -/
structure CrosspointLevelAction where
  destinationPort : Nat
  sourcePort : Nat
  levelValue : Nat
deriving DecidableEq

namespace RequestCrosspointLevelActions

open EclipseHCI

/-- The validation and 6-byte encoding of one action inside
`createPayload`'s loop: destination port big-endian (0-indexed), source
port big-endian (0-indexed), level value big-endian.  A range violation
throws, modelled as `Except.error` with the source's message text. -/
def encodeAction (a : CrosspointLevelAction) : Except String (List Nat) :=
  if a.destinationPort < 1 ∨ 1024 < a.destinationPort then
    .error "Destination port must be between 1 and 1024"
  else if a.sourcePort < 1 ∨ 1024 < a.sourcePort then
    .error "Source port must be between 1 and 1024"
  else if ¬ LevelConversion.isValidLevel a.levelValue then
    .error "Level value must be between 0 and 287"
  else
    .ok (u16BE (a.destinationPort - 1) ++ u16BE (a.sourcePort - 1)
      ++ u16BE a.levelValue)

/-- The `for` loop of `createPayload`: validate and encode each action,
concatenating the 6-byte buffers; the first validation failure throws. -/
def encodeActions : List CrosspointLevelAction → Except String (List Nat)
  | [] => .ok []
  | a :: rest =>
    match encodeAction a with
    | .error e => .error e
    | .ok bytes =>
      match encodeActions rest with
      | .error e => .error e
      | .ok bufs => .ok (bytes ++ bufs)

/-- Model of `RequestCrosspointLevelActions.createPayload`: a big-endian 2-byte
count (whose `writeUInt16BE` throws when the count does not fit 16 bits)
followed by the concatenated 6-byte action encodings. -/
def createPayload (actions : List CrosspointLevelAction) :
    Except String (List Nat) :=
  if 0xFFFF < actions.length then
    .error "Count is out of range for writeUInt16BE"
  else
    match encodeActions actions with
    | .error e => .error e
    | .ok actionData => .ok (u16BE actions.length ++ actionData)

/-- Submitting a crosspoint-level request: the constructor runs
`createPayload` (so a validation error propagates before anything is
queued); on success the request (message ID `0x0026`, HCIv2, protocol
version 1) is placed on the send queue.  Returns the new queue and the
raised error, if any. -/
def submit (queue : List HCIRequest) (actions : List CrosspointLevelAction)
    (urgent : Bool) : List HCIRequest × Option String :=
  match createPayload actions with
  | .error e => (queue, some e)
  | .ok payload => (addToQueue queue ⟨0x0026, payload, urgent, none, 2, 1⟩, none)

end RequestCrosspointLevelActions

/-- One parsed entry of `ReplyCrosspointLevelStatus`: 1-indexed ports and
the raw level plus its dB conversion. -/
structure CrosspointLevelData where
  destinationPort : Nat
  sourcePort : Nat
  levelValue : Nat
  levelDB : LevelConversion.DB
deriving DecidableEq

/-- The fields of `ReplyCrosspointLevelStatus.parse`'s result that carry
protocol data (`messageType`, `timestamp` and `rawPayload` are
constant/logging strings). -/
structure CrosspointLevelStatusData where
  messageID : Nat
  count : Nat
  levelData : List CrosspointLevelData
deriving DecidableEq

namespace ReplyCrosspointLevelStatus

open EclipseHCI

/-- The entry-reading loop of `parse`: each entry is 6 bytes — destination
port and source port (converted back to 1-indexed) and the level value,
converted to dB with `LevelConversion.levelToDB`. -/
def parseEntries (payload : List Nat) :
    Nat → Nat → Option (List CrosspointLevelData)
  | _, 0 => some []
  | offset, n + 1 =>
    if payload.length < offset + 6 then none
    else
      let d := readUInt16BE payload offset + 1
      let s := readUInt16BE payload (offset + 2) + 1
      let lv := readUInt16BE payload (offset + 4)
      (parseEntries payload (offset + 6) n).map
        (fun rest => ⟨d, s, lv, LevelConversion.levelToDB lv⟩ :: rest)

/-- Model of `ReplyCrosspointLevelStatus.parse`: reject payloads shorter than the
2-byte count or shorter than `2 + count × 6`, then read the entries. -/
def parse (payload : List Nat) : Option CrosspointLevelStatusData :=
  if payload.length < 2 then none
  else
    let count := readUInt16BE payload 0
    if payload.length < 2 + count * 6 then none
    else
      (parseEntries payload 2 count).map (fun l => ⟨0x0028, count, l⟩)

end ReplyCrosspointLevelStatus


namespace RequestCrosspointLevelActions

open EclipseHCI

/-- The 6 wire bytes of one validated action. -/
def encBytes (a : CrosspointLevelAction) : List Nat :=
  u16BE (a.destinationPort - 1) ++ u16BE (a.sourcePort - 1) ++ u16BE a.levelValue

lemma encBytes_length (a : CrosspointLevelAction) : (encBytes a).length = 6 := by
  simp [encBytes, u16BE]

lemma encodeAction_ok {a : CrosspointLevelAction}
    (hd1 : 1 ≤ a.destinationPort) (hd2 : a.destinationPort ≤ 1024)
    (hs1 : 1 ≤ a.sourcePort) (hs2 : a.sourcePort ≤ 1024)
    (hl : a.levelValue ≤ 287) :
    encodeAction a = .ok (encBytes a) := by
  unfold encodeAction encBytes
  rw [if_neg (by omega), if_neg (by omega),
    if_neg (by simp [LevelConversion.isValidLevel, hl])]

lemma encodeActions_ok :
    ∀ (actions : List CrosspointLevelAction),
      (∀ a ∈ actions, 1 ≤ a.destinationPort ∧ a.destinationPort ≤ 1024 ∧
        1 ≤ a.sourcePort ∧ a.sourcePort ≤ 1024 ∧ a.levelValue ≤ 287) →
      encodeActions actions = .ok ((actions.map encBytes).flatten) := by
  intro actions
  induction actions with
  | nil => intro _; rfl
  | cons a acts ih =>
    intro h
    obtain ⟨h1, h2, h3, h4, h5⟩ := h a (by simp)
    have hok := encodeAction_ok h1 h2 h3 h4 h5
    have ih2 := ih (fun x hx => h x (by simp [hx]))
    simp [encodeActions, hok, ih2]

lemma flatten_encBytes_length (actions : List CrosspointLevelAction) :
    ((actions.map encBytes).flatten).length = 6 * actions.length := by
  induction actions with
  | nil => rfl
  | cons a acts ih =>
    simp only [List.map_cons, List.flatten_cons, List.length_append,
      encBytes_length, ih, List.length_cons]
    ring

end RequestCrosspointLevelActions

namespace ReplyCrosspointLevelStatus

open EclipseHCI
open RequestCrosspointLevelActions

lemma readUInt16BE_append_right (pre x : List Nat) (k : Nat)
    (_hk : k + 1 < x.length) :
    readUInt16BE (pre ++ x) (pre.length + k) = readUInt16BE x k := by
  unfold readUInt16BE
  rw [List.getD_append_right _ _ _ _ (by omega),
    List.getD_append_right _ _ _ _ (by omega)]
  have h1 : pre.length + k - pre.length = k := by omega
  have h2 : pre.length + k + 1 - pre.length = k + 1 := by omega
  rw [h1, h2]

/-- Reading back the entries written by `createPayload`'s loop recovers
every action: ports converted back to 1-indexed, levels unchanged. -/
lemma parseEntries_encBytes :
    ∀ (actions : List CrosspointLevelAction) (pre : List Nat),
      (∀ a ∈ actions, 1 ≤ a.destinationPort ∧ a.destinationPort ≤ 1024 ∧
        1 ≤ a.sourcePort ∧ a.sourcePort ≤ 1024 ∧ a.levelValue ≤ 287) →
      parseEntries (pre ++ (actions.map encBytes).flatten) pre.length
          actions.length
        = some (actions.map (fun a =>
            ⟨a.destinationPort, a.sourcePort, a.levelValue,
              LevelConversion.levelToDB a.levelValue⟩)) := by
  intro actions
  induction actions with
  | nil => intro pre _; rfl
  | cons a acts ih =>
    intro pre h
    obtain ⟨h1, h2, h3, h4, h5⟩ := h a (by simp)
    have hlen : (pre ++ ((a :: acts).map encBytes).flatten).length
        = pre.length + 6 + 6 * acts.length := by
      simp only [List.length_append, flatten_encBytes_length, List.length_cons]
      ring
    have hx : ((a :: acts).map encBytes).flatten
        = encBytes a ++ (acts.map encBytes).flatten := by
      simp
    have hd : readUInt16BE (pre ++ ((a :: acts).map encBytes).flatten)
        pre.length = a.destinationPort - 1 := by
      rw [hx, show pre.length = pre.length + 0 from rfl,
        readUInt16BE_append_right pre _ 0
          (by simp [List.length_append, encBytes_length]; omega)]
      show 256 * ((a.destinationPort - 1) / 256) + (a.destinationPort - 1) % 256
          = a.destinationPort - 1
      exact Nat.div_add_mod _ 256
    have hs : readUInt16BE (pre ++ ((a :: acts).map encBytes).flatten)
        (pre.length + 2) = a.sourcePort - 1 := by
      rw [hx, readUInt16BE_append_right pre _ 2
          (by simp [List.length_append, encBytes_length]; omega)]
      show 256 * ((a.sourcePort - 1) / 256) + (a.sourcePort - 1) % 256
          = a.sourcePort - 1
      exact Nat.div_add_mod _ 256
    have hv : readUInt16BE (pre ++ ((a :: acts).map encBytes).flatten)
        (pre.length + 4) = a.levelValue := by
      rw [hx, readUInt16BE_append_right pre _ 4
          (by simp [List.length_append, encBytes_length]; omega)]
      show 256 * (a.levelValue / 256) + a.levelValue % 256 = a.levelValue
      exact Nat.div_add_mod _ 256
    have hrec := ih (pre ++ encBytes a) (fun x hx2 => h x (by simp [hx2]))
    have hpre6 : (pre ++ encBytes a).length = pre.length + 6 := by
      simp [List.length_append, encBytes_length]
    rw [hpre6] at hrec
    have hre : (pre ++ encBytes a) ++ (acts.map encBytes).flatten
        = pre ++ ((a :: acts).map encBytes).flatten := by
      rw [hx, List.append_assoc]
    rw [hre] at hrec
    show parseEntries (pre ++ ((a :: acts).map encBytes).flatten) pre.length
        (acts.length + 1) = _
    unfold parseEntries
    rw [if_neg (by omega)]
    simp only [hd, hs, hv, hrec, Option.map_some']
    have hd1 : a.destinationPort - 1 + 1 = a.destinationPort := by omega
    have hs1 : a.sourcePort - 1 + 1 = a.sourcePort := by omega
    rw [hd1, hs1]
    simp

end ReplyCrosspointLevelStatus


namespace RequestCrosspointActions

/-- Model of `RequestCrosspointActions.validatePorts`: the user-facing port range of
the crosspoint codec is 1..1024 (0-indexed 0..1023 on the wire). -/
def validatePorts (sourcePort destinationPort : Nat) : Bool :=
  decide (0 < sourcePort) && decide (sourcePort ≤ 1024) &&
    decide (0 < destinationPort) && decide (destinationPort ≤ 1024)

end RequestCrosspointActions

/-- C3: the crosspoint-level codec round-trips.  For every action list
whose count fits the 16-bit count field and whose fields satisfy the
codec's range invariants (ports 1..1024, levels 0..287),
`ReplyCrosspointLevelStatus.parse` applied to the payload built by
`RequestCrosspointLevelActions.createPayload` succeeds and returns the
same count, destination ports, source ports and level values. -/
theorem c3_crosspoint_level_roundtrip (actions : List CrosspointLevelAction)
    (hcount : actions.length ≤ 0xFFFF)
    (hrange : ∀ a ∈ actions, 1 ≤ a.destinationPort ∧ a.destinationPort ≤ 1024 ∧
      1 ≤ a.sourcePort ∧ a.sourcePort ≤ 1024 ∧ a.levelValue ≤ 287) :
    ∃ payload,
      RequestCrosspointLevelActions.createPayload actions = .ok payload
      ∧ ∃ parsed, ReplyCrosspointLevelStatus.parse payload = some parsed
        ∧ parsed.count = actions.length
        ∧ parsed.levelData.map (fun e => e.destinationPort)
            = actions.map (fun a => a.destinationPort)
        ∧ parsed.levelData.map (fun e => e.sourcePort)
            = actions.map (fun a => a.sourcePort)
        ∧ parsed.levelData.map (fun e => e.levelValue)
            = actions.map (fun a => a.levelValue) := by
  have henc := RequestCrosspointLevelActions.encodeActions_ok actions hrange
  set bodyBytes :=
    (actions.map RequestCrosspointLevelActions.encBytes).flatten with hbody
  refine ⟨EclipseHCI.u16BE actions.length ++ bodyBytes, ?_, ?_⟩
  · unfold RequestCrosspointLevelActions.createPayload
    rw [if_neg (by omega), henc]
  · have hplen : (EclipseHCI.u16BE actions.length ++ bodyBytes).length
        = 2 + 6 * actions.length := by
      rw [List.length_append,
        show (EclipseHCI.u16BE actions.length).length = 2 from rfl,
        hbody, RequestCrosspointLevelActions.flatten_encBytes_length]
    have hcnt : EclipseHCI.readUInt16BE
        (EclipseHCI.u16BE actions.length ++ bodyBytes) 0 = actions.length := by
      show 256 * (actions.length / 256) + actions.length % 256 = actions.length
      exact Nat.div_add_mod _ 256
    have hentries := ReplyCrosspointLevelStatus.parseEntries_encBytes actions
      (EclipseHCI.u16BE actions.length) hrange
    refine ⟨⟨0x0028, actions.length,
      actions.map (fun a => ⟨a.destinationPort, a.sourcePort, a.levelValue,
        LevelConversion.levelToDB a.levelValue⟩)⟩, ?_, rfl, ?_, ?_, ?_⟩
    · unfold ReplyCrosspointLevelStatus.parse
      rw [if_neg (by omega)]
      simp only [hcnt]
      rw [if_neg (by omega)]
      have hp2 : (EclipseHCI.u16BE actions.length).length = 2 := rfl
      rw [← hp2, hentries]
      rfl
    · rw [List.map_map]
      rfl
    · rw [List.map_map]
      rfl
    · rw [List.map_map]
      rfl

/-- C3 witness: a 2-action list with in-range fields round-trips. -/
theorem c3_witness :
    (([⟨1, 2, 204⟩, ⟨1024, 1024, 0⟩] : List CrosspointLevelAction).length ≤ 0xFFFF)
    ∧ (∀ a ∈ ([⟨1, 2, 204⟩, ⟨1024, 1024, 0⟩] : List CrosspointLevelAction),
        1 ≤ a.destinationPort ∧ a.destinationPort ≤ 1024 ∧
        1 ≤ a.sourcePort ∧ a.sourcePort ≤ 1024 ∧ a.levelValue ≤ 287)
    ∧ ∃ payload,
        RequestCrosspointLevelActions.createPayload
            [⟨1, 2, 204⟩, ⟨1024, 1024, 0⟩] = .ok payload
        ∧ ∃ parsed, ReplyCrosspointLevelStatus.parse payload = some parsed
          ∧ parsed.count = 2
          ∧ parsed.levelData.map (fun e => e.destinationPort) = [1, 1024]
          ∧ parsed.levelData.map (fun e => e.sourcePort) = [2, 1024]
          ∧ parsed.levelData.map (fun e => e.levelValue) = [204, 0] := by
  refine ⟨by decide, by decide, ?_⟩
  exact c3_crosspoint_level_roundtrip [⟨1, 2, 204⟩, ⟨1024, 1024, 0⟩]
    (by decide) (by decide)

/-- C6 (claim as stated is false): submitting a crosspoint-level request
with port fields of 1024 raises no error — 1024 is the top of the codec's
user-facing 1..1024 range, encoded as wire value 1023 (`0x03FF`) — and one
envelope is enqueued; `RequestCrosspointActions.validatePorts` likewise
accepts 1024. -/
theorem c6_counterexample :
    RequestCrosspointLevelActions.submit [] [⟨1024, 1024, 0⟩] false
      = ([⟨0x0026, [0x00, 0x01, 0x03, 0xFF, 0x03, 0xFF, 0x00, 0x00],
          false, none, 2, 1⟩], none)
    ∧ RequestCrosspointActions.validatePorts 1024 1024 = true := by
  constructor
  · decide
  · decide

/-- C6 (amended): a port field just outside the codec's range — 1025, or
0 on the 1-indexed API — raises the encode validation error synchronously
from `createPayload`, before anything reaches the queue, and the send
queue is returned unchanged. -/
theorem c6_amended (q : List EclipseHCI.HCIRequest) (u : Bool) :
    RequestCrosspointLevelActions.submit q [⟨1025, 1, 0⟩] u
      = (q, some "Destination port must be between 1 and 1024")
    ∧ RequestCrosspointLevelActions.submit q [⟨0, 1, 0⟩] u
      = (q, some "Destination port must be between 1 and 1024") := by
  have h1 : RequestCrosspointLevelActions.createPayload [⟨1025, 1, 0⟩]
      = .error "Destination port must be between 1 and 1024" := rfl
  have h2 : RequestCrosspointLevelActions.createPayload [⟨0, 1, 0⟩]
      = .error "Destination port must be between 1 and 1024" := rfl
  constructor
  · simp [RequestCrosspointLevelActions.submit, h1]
  · simp [RequestCrosspointLevelActions.submit, h2]
